import Mathlib

/-
Verification development for the Moss version-control synchronization layer
(src/src-tauri/src/git_manager.rs).

The Rust code drives the git2 (libgit2) commit-graph primitives.  The spec
treats those primitives as an external collaborator, so this file embeds
them as a small explicit model: the object store is an append-only list of
commits (an object id is the commit's index in that list, so parents of a
commit always have smaller ids in any store built by the engine), trees and
the index are association lists from slash-separated path components to
blob byte strings, and refs are association lists from branch names to ids.
Each public function of git_manager.rs is then translated body-by-body on
top of those primitives, with fallible operations returning Except.
Signature timestamps and the formatted local time that appears in automatic
commit messages are passed in as explicit arguments.
-/

set_option autoImplicit false

namespace Moss

/-- Blob content: a raw byte string (each entry is one byte, 0..255). -/
abbrev Bytes := List Nat

/-- A canonical repository path, given as its slash-separated components. -/
abbrev TPath := List String

/-- A git tree, flattened to an association list from full file paths to
blob contents (directories are implicit as proper prefixes of file paths). -/
abbrev Tree := List (TPath × Bytes)

/-- A commit object: message, author identity, commit time, parent ids
(in order; two entries for a merge commit), and its root tree. -/
structure Commit where
  message : String
  authorName : String
  authorEmail : String
  time : Int
  parents : List Nat
  tree : Tree
  deriving DecidableEq, Repr

/-- One conflicted index entry: the three optional stages for a path
(common ancestor, ours, theirs), as recorded by a three-way merge. -/
structure Conflict where
  path : TPath
  ancestor : Option Bytes
  our : Option Bytes
  their : Option Bytes
  deriving DecidableEq, Repr

/-- The index (staging area): staged entries plus any conflicted entries. -/
structure Index where
  entries : List (TPath × Bytes)
  conflicts : List Conflict
  deriving DecidableEq, Repr

/-- SyncStatus from git_manager.rs: ahead/behind counts and the up-to-date flag. -/
structure SyncStatus where
  ahead : Nat
  behind : Nat
  up_to_date : Bool
  deriving DecidableEq, Repr

/-- ConflictInfo from git_manager.rs: one path with ancestor (optional) and
the two sides; a missing side is reported as the empty string there, so as
empty bytes here. -/
structure ConflictInfo where
  path : TPath
  ancestor : Option Bytes
  ours : Bytes
  theirs : Bytes
  deriving DecidableEq, Repr

/-- ConflictResolution from git_manager.rs. -/
structure ConflictResolution where
  has_conflicts : Bool
  conflicts : List ConflictInfo
  sync_status : SyncStatus
  deriving DecidableEq, Repr

/-- The errors produced by the engine.  Each constructor corresponds to one
GitError site of git_manager.rs or of the git2 primitives it calls; the
constructor alreadyMerging is named by the spec's error taxonomy but is
produced by no operation in the source, which is what claim C1 is about. -/
inductive GitErr where
  | objectNotFound
  | headNotFound
  | dirtyWorkingTree
  | notMosaicCommit
  | parentNotFound
  | notMerging
  | conflictsRemain
  | invalidUtf8
  | notAFile
  | absolutePath
  | invalidPath
  | fileNotFound
  | unmergedIndex
  | remoteNotFound
  | nonFastForward
  | alreadyMerging
  deriving DecidableEq, Repr

/-- A file-system path handed to the commit operations: an absolute flag
plus its components, mirroring std::path::Path just as far as the source
uses it (strip_prefix and index.add_path). -/
structure FPath where
  abs : Bool
  comps : List String
  deriving DecidableEq, Repr

/-- The local repository: object store, current branch, local branch refs,
remote-tracking refs (refs/remotes/origin/*), index, working tree, the
optional MERGE_HEAD (its presence is what git2 reports as the Merging
state), the configured origin URL, and the repository root path. -/
structure Repo where
  store : List Commit
  branch : String
  branches : List (String × Nat)
  remoteRefs : List (String × Nat)
  index : Index
  workdir : List (TPath × Bytes)
  mergeHead : Option Nat
  originUrl : Option String
  root : FPath
  deriving DecidableEq, Repr

/-- The world a sync operation acts on: the local repository plus the
remote's branch refs.  Object transfer is invisible in the model because
both sides share the local object store. -/
structure World where
  repo : Repo
  remote : List (String × Nat)
  deriving DecidableEq, Repr

/-- Look a key up in a ref list. -/
def lookup (l : List (String × Nat)) (k : String) : Option Nat :=
  match l with
  | [] => none
  | (k2, v) :: rest => if k2 == k then some v else lookup rest k

/-- Set a ref, replacing an existing binding for the key or appending one. -/
def setRef (l : List (String × Nat)) (k : String) (v : Nat) : List (String × Nat) :=
  match l with
  | [] => [(k, v)]
  | (k2, v2) :: rest => if k2 == k then (k, v) :: rest else (k2, v2) :: setRef rest k v

/-- Look a path up in a tree or index entry list. -/
def lookupT (l : List (TPath × Bytes)) (k : TPath) : Option Bytes :=
  match l with
  | [] => none
  | (k2, v) :: rest => if k2 == k then some v else lookupT rest k

/-- Stage a path into an entry list, replacing an existing entry or appending. -/
def setEntry (l : List (TPath × Bytes)) (k : TPath) (v : Bytes) : List (TPath × Bytes) :=
  match l with
  | [] => [(k, v)]
  | (k2, v2) :: rest => if k2 == k then (k, v) :: rest else (k2, v2) :: setEntry rest k v

/-- The keys of an entry list. -/
def keysOf (l : List (TPath × Bytes)) : List TPath := l.map (fun e => e.1)

/-- Two entry lists agree as finite maps. -/
def mapEqv (a b : List (TPath × Bytes)) : Bool :=
  ((keysOf a ++ keysOf b).dedup).all (fun k => lookupT a k == lookupT b k)

/-- Commit ids reachable from an id by following parent links, with fuel;
fuel equal to the store size saturates any store whose parent links point
to strictly smaller ids (the shape the engine always builds). -/
def reachFrom (store : List Commit) : Nat → Nat → List Nat
  | 0, oid => [oid]
  | fuel + 1, oid =>
    oid :: (match store[oid]? with
      | some c => (c.parents.map (reachFrom store fuel)).flatten
      | none => [])

/-- Models git merge-analysis ancestry and git_graph_descendant_of:
a is reachable from b (a is an ancestor of b, or equal to it). -/
def isAncestor (store : List Commit) (a b : Nat) : Bool :=
  (reachFrom store store.length b).contains a

/-- Models git_graph_ahead_behind: commits reachable from a but not from b,
and from b but not from a. -/
def aheadBehind (store : List Commit) (a b : Nat) : Nat × Nat :=
  let ra := (reachFrom store store.length a).dedup
  let rb := (reachFrom store store.length b).dedup
  ((ra.filter (fun x => !(rb.contains x))).length,
   (rb.filter (fun x => !(ra.contains x))).length)

/-- Models a git2 revwalk: it yields exactly the commits reachable from the
roots that were pushed onto it, and nothing when no root was pushed.  The
source's get_sync_status calls repo.revwalk()?.count() without pushing HEAD,
so it walks the empty root set. -/
def revwalk_count (store : List Commit) (roots : List Nat) : Nat :=
  (((roots.map (reachFrom store store.length)).flatten).dedup).length

/-- Best common ancestor of two ids (the largest, hence most recently
created, common reachable id), modelling git_merge_base. -/
def mergeBaseOid (store : List Commit) (a b : Nat) : Option Nat :=
  let ra := reachFrom store store.length a
  let rb := reachFrom store store.length b
  (ra.filter (fun x => rb.contains x)).foldl
    (fun acc x => match acc with
      | none => some x
      | some m => some (max m x)) none

/-- A UTF-8 continuation byte. -/
def utf8Cont (b : Nat) : Bool := 0x80 ≤ b && b ≤ 0xBF

/-- Validity of a byte string as UTF-8, exactly as Rust's
std::str::from_utf8 checks it (RFC 3629: overlong encodings, surrogate
code points and values above U+10FFFF are rejected). -/
def utf8Valid : List Nat → Bool
  | [] => true
  | b :: rest =>
    if b ≤ 0x7F then utf8Valid rest
    else if 0xC2 ≤ b && b ≤ 0xDF then
      match rest with
      | c1 :: r1 => utf8Cont c1 && utf8Valid r1
      | [] => false
    else if b == 0xE0 then
      match rest with
      | c1 :: c2 :: r2 => (0xA0 ≤ c1 && c1 ≤ 0xBF) && utf8Cont c2 && utf8Valid r2
      | _ => false
    else if (0xE1 ≤ b && b ≤ 0xEC) || b == 0xEE || b == 0xEF then
      match rest with
      | c1 :: c2 :: r2 => utf8Cont c1 && utf8Cont c2 && utf8Valid r2
      | _ => false
    else if b == 0xED then
      match rest with
      | c1 :: c2 :: r2 => (0x80 ≤ c1 && c1 ≤ 0x9F) && utf8Cont c2 && utf8Valid r2
      | _ => false
    else if b == 0xF0 then
      match rest with
      | c1 :: c2 :: c3 :: r3 =>
          (0x90 ≤ c1 && c1 ≤ 0xBF) && utf8Cont c2 && utf8Cont c3 && utf8Valid r3
      | _ => false
    else if 0xF1 ≤ b && b ≤ 0xF3 then
      match rest with
      | c1 :: c2 :: c3 :: r3 =>
          utf8Cont c1 && utf8Cont c2 && utf8Cont c3 && utf8Valid r3
      | _ => false
    else if b == 0xF4 then
      match rest with
      | c1 :: c2 :: c3 :: r3 =>
          (0x80 ≤ c1 && c1 ≤ 0x8F) && utf8Cont c2 && utf8Cont c3 && utf8Valid r3
      | _ => false
    else false

/-- First 8 characters of an id rendered in hex, for the restore message
(the source slices the first 8 characters of the 40-char hex oid). -/
def shortHex (n : Nat) : String := String.mk ((Nat.toDigits 16 n).take 8)

/-- String.startsWith from the source, stated over the character lists so
that concrete instances evaluate. -/
def strStarts (s pre : String) : Bool := pre.data.isPrefixOf s.data

/-- Split a character list at every occurrence of a separator character. -/
def splitOnChar (c : Char) : List Char → List (List Char)
  | [] => [[]]
  | a :: rest =>
    let r := splitOnChar c rest
    if a == c then [] :: r
    else match r with
      | [] => [[a]]
      | g :: gs => (a :: g) :: gs

/-- String.splitOn with separator "/" from the source (the path is split on
forward slashes regardless of host conventions), over character lists so
that concrete instances evaluate. -/
def splitSlash (s : String) : List String := (splitOnChar '/' s.data).map String.mk

/-- Parent links point to strictly smaller ids: true of every store the
engine builds, since each new commit's parents already exist. -/
def wfStore (store : List Commit) : Bool :=
  (List.range store.length).all (fun i =>
    match store[i]? with
    | some c => c.parents.all (fun p => p < i)
    | none => true)

/-- Tree entries of the commit HEAD points at (empty when unborn),
used by the status computation. -/
def headTreeEntries (r : Repo) : List (TPath × Bytes) :=
  match lookup r.branches r.branch with
  | some h =>
    match r.store[h]? with
    | some c => c.tree
    | none => []
  | none => []

/-- has_uncommitted_changes from git_manager.rs: repo.statuses(None) is
non-empty, i.e. the index differs from the HEAD tree, or the working tree
differs from the index (untracked files included), or conflicted entries
remain.  Ignore rules are not modelled: the working tree holds only
content the engine tracks. -/
def has_uncommitted_changes (r : Repo) : Bool :=
  !(mapEqv r.index.entries (headTreeEntries r) &&
    mapEqv r.workdir r.index.entries &&
    r.index.conflicts.isEmpty)

/-- create_commit_internal from git_manager.rs: parent is the current HEAD
commit if HEAD resolves, else the new commit is a root commit; the ref of
the current branch is advanced to the new commit.  No comparison between
the given tree and the parent tree is made. -/
def create_commit_internal (r : Repo) (message : String) (tr : Tree)
    (authorName authorEmail : String) (t : Int) : Except GitErr (Nat × Repo) :=
  match lookup r.branches r.branch with
  | some h =>
    match r.store[h]? with
    | none => .error .objectNotFound
    | some _ =>
      let c : Commit := ⟨message, authorName, authorEmail, t, [h], tr⟩
      .ok (r.store.length,
        { r with store := r.store ++ [c],
                 branches := setRef r.branches r.branch r.store.length })
  | none =>
    let c : Commit := ⟨message, authorName, authorEmail, t, [], tr⟩
    .ok (r.store.length,
      { r with store := r.store ++ [c],
               branches := setRef r.branches r.branch r.store.length })

/-- index.add_path via git2: git2-rs rejects absolute paths outright, and
libgit2's index path validation rejects empty paths and the components
"", ".", ".." and ".git"; otherwise the file is read from the working tree
(failing if absent) and staged, clearing any conflict recorded for the path. -/
def pathOk (p : FPath) : Bool :=
  !p.abs && !p.comps.isEmpty &&
    p.comps.all (fun c => c != "" && c != "." && c != ".." && c != ".git")

/-- Staging one path into the index (see pathOk for the validation). -/
def add_path (r : Repo) (idx : Index) (p : FPath) : Except GitErr Index :=
  if p.abs then .error .absolutePath
  else if pathOk p = false then .error .invalidPath
  else match lookupT r.workdir p.comps with
    | none => .error .fileNotFound
    | some bs =>
      .ok { entries := setEntry idx.entries p.comps bs,
            conflicts := idx.conflicts.filter (fun c => !(c.path == p.comps)) }

/-- Path::strip_prefix(repo_root).unwrap_or(path) from the source: drop the
repository root when it is a prefix of the path, else keep the path as given. -/
def stripRoot (root : FPath) (f : FPath) : FPath :=
  if root.abs == f.abs && root.comps.isPrefixOf f.comps then
    ⟨false, f.comps.drop root.comps.length⟩
  else f

/-- The staging loop of auto_commit_mosaic_changes: each path is made
relative to the repository root and staged; the first failure aborts, and
since index.write() only runs after the loop, nothing is persisted then. -/
def stageFiles (r : Repo) (idx : Index) : List FPath → Except GitErr Index
  | [] => .ok idx
  | f :: rest =>
    match add_path r idx (stripRoot r.root f) with
    | .error e => .error e
    | .ok idx2 => stageFiles r idx2 rest

/-- index.write_tree: turns the staged entries into a tree; libgit2 refuses
when conflicted entries remain. -/
def write_tree (idx : Index) : Except GitErr Tree :=
  if idx.conflicts.isEmpty then .ok idx.entries else .error .unmergedIndex

/-- auto_commit_mosaic_changes from git_manager.rs.  ts is the formatted
local timestamp the source embeds in the message. -/
def auto_commit_mosaic_changes (r : Repo) (message : String) (files : List FPath)
    (t : Int) (ts : String) : Except GitErr (Nat × Repo) :=
  match stageFiles r r.index files with
  | .error e => .error e
  | .ok idx =>
    let r1 := { r with index := idx }
    match write_tree idx with
    | .error e => .error e
    | .ok tr =>
      create_commit_internal r1 ("Mosaic: " ++ message ++ " (" ++ ts ++ ")") tr
        "Mosaic" "mosaic@amber-app.local" t

/-- commit_file from git_manager.rs: stage one path, commit verbatim as User. -/
def commit_file (r : Repo) (message : String) (f : FPath) (t : Int) :
    Except GitErr (Nat × Repo) :=
  match add_path r r.index (stripRoot r.root f) with
  | .error e => .error e
  | .ok idx =>
    let r1 := { r with index := idx }
    match write_tree idx with
    | .error e => .error e
    | .ok tr => create_commit_internal r1 message tr "User" "user@amber-app.local" t

/-- commit_all_changes from git_manager.rs: index.add_all with pattern *
stages the whole working tree (additions, modifications and deletions alike),
then commits as User. -/
def commit_all_changes (r : Repo) (message : String) (t : Int) :
    Except GitErr (Nat × Repo) :=
  let idx : Index := { entries := r.workdir, conflicts := [] }
  let r1 := { r with index := idx }
  match write_tree idx with
  | .error e => .error e
  | .ok tr => create_commit_internal r1 message tr "User" "user@amber-app.local" t

/-- restore_vault_to_commit from git_manager.rs: refuse when statuses are
non-empty; otherwise force-checkout the target tree over working tree and
index and commit that tree with the pre-call HEAD as single parent. -/
def restore_vault_to_commit (r : Repo) (commitOid : Nat) (t : Int) :
    Except GitErr (Nat × Repo) :=
  if has_uncommitted_changes r then .error .dirtyWorkingTree
  else match r.store[commitOid]? with
  | none => .error .objectNotFound
  | some target =>
    match lookup r.branches r.branch with
    | none => .error .headNotFound
    | some h =>
      match r.store[h]? with
      | none => .error .objectNotFound
      | some _ =>
        let msg := "Restored vault to: " ++ target.message ++ " (" ++
          shortHex commitOid ++ ")"
        let c : Commit := ⟨msg, "User", "user@amber-app.local", t, [h], target.tree⟩
        .ok (r.store.length,
          { r with workdir := target.tree,
                   index := { entries := target.tree, conflicts := [] },
                   store := r.store ++ [c],
                   branches := setRef r.branches r.branch r.store.length })

/-- undo_last_mosaic_commit from git_manager.rs: only a HEAD whose message
starts with the automation tag is undone; the index is reset to the first
parent's tree and committed with HEAD as parent (the working tree is not
touched by the source, and is not touched here). -/
def undo_last_mosaic_commit (r : Repo) (t : Int) : Except GitErr (Nat × Repo) :=
  match lookup r.branches r.branch with
  | none => .error .headNotFound
  | some h =>
    match r.store[h]? with
    | none => .error .objectNotFound
    | some hc =>
      if !(strStarts hc.message "Mosaic:") then .error .notMosaicCommit
      else match hc.parents[0]? with
      | none => .error .parentNotFound
      | some p =>
        match r.store[p]? with
        | none => .error .objectNotFound
        | some pc =>
          let c : Commit :=
            ⟨"Revert: " ++ hc.message, "Mosaic", "mosaic@amber-app.local", t, [h], pc.tree⟩
          .ok (r.store.length,
            { r with index := { entries := pc.tree, conflicts := [] },
                     store := r.store ++ [c],
                     branches := setRef r.branches r.branch r.store.length })

/-- Resolution of a path inside one tree: an exact entry is a blob (its
content is returned when it decodes as UTF-8); a proper prefix of some
entry is a directory, reported as not a file; anything else is not found. -/
def contentInTree (tr : Tree) (comps : TPath) : Except GitErr Bytes :=
  match lookupT tr comps with
  | some bs => if utf8Valid bs then .ok bs else .error .invalidUtf8
  | none =>
    if tr.any (fun e => comps.isPrefixOf e.1 && comps.length < e.1.length) then
      .error .notAFile
    else .error .objectNotFound

/-- get_file_content_at_commit from git_manager.rs: the path is slash-split
regardless of host conventions, looked up in the commit's tree, and the blob
content is returned only when it is valid UTF-8. -/
def get_file_content_at_commit (r : Repo) (commitOid : Nat) (filePath : String) :
    Except GitErr Bytes :=
  match r.store[commitOid]? with
  | none => .error .objectNotFound
  | some c => contentInTree c.tree (splitSlash filePath)

/-- get_sync_status from git_manager.rs.  When no remote-tracking ref exists
the source builds SyncStatus from repo.revwalk()?.count() with no root pushed
onto the walk, behind 0 and up_to_date false; otherwise it counts ahead and
behind by graph ancestry. -/
def get_sync_status (r : Repo) : Except GitErr SyncStatus :=
  match lookup r.branches r.branch with
  | none => .error .headNotFound
  | some h =>
    match lookup r.remoteRefs r.branch with
    | none =>
      .ok { ahead := revwalk_count r.store [], behind := 0, up_to_date := false }
    | some rm =>
      match r.store[h]?, r.store[rm]? with
      | some _, some _ =>
        let ab := aheadBehind r.store h rm
        .ok { ahead := ab.1, behind := ab.2, up_to_date := ab.1 == 0 && ab.2 == 0 }
      | _, _ => .error .objectNotFound

/-- fetch_remote from git_manager.rs: with an origin configured, download
refs/heads/* of the remote into refs/remotes/origin/*; the working tree is
untouched.  The network and credential callback are assumed to succeed. -/
def fetch_remote (w : World) (_tok : String) : Except GitErr World :=
  match w.repo.originUrl with
  | none => .error .remoteNotFound
  | some _ => .ok { w with repo := { w.repo with remoteRefs := w.remote } }

/-- push_to_remote from git_manager.rs: push the current branch ref to the
matching remote branch; the remote accepts only fast-forward updates. -/
def push_to_remote (w : World) (_tok : String) : Except GitErr World :=
  match w.repo.originUrl with
  | none => .error .remoteNotFound
  | some _ =>
    match lookup w.repo.branches w.repo.branch with
    | none => .error .headNotFound
    | some h =>
      match lookup w.remote w.repo.branch with
      | none => .ok { w with remote := setRef w.remote w.repo.branch h }
      | some rm =>
        if isAncestor w.repo.store rm h then
          .ok { w with remote := setRef w.remote w.repo.branch h }
        else .error .nonFastForward

/-- Per-path three-way merge resolution: ok none means the path is absent
from the result, error marks a conflict. -/
def mergeEntry (b o th : Option Bytes) : Except Unit (Option Bytes) :=
  if o == th then .ok o
  else if o == b then .ok th
  else if th == b then .ok o
  else .error ()

/-- Three-way merge of a base, ours and theirs tree, path by path,
producing the merged entries and the conflicted entries. -/
def threeWayMerge (base ours theirs : Tree) : Tree × List Conflict :=
  ((keysOf base ++ keysOf ours ++ keysOf theirs).dedup).foldr
    (fun k acc =>
      let b := lookupT base k
      let o := lookupT ours k
      let th := lookupT theirs k
      match mergeEntry b o th with
      | .ok (some v) => ((k, v) :: acc.1, acc.2)
      | .ok none => acc
      | .error _ => (acc.1, ⟨k, b, o, th⟩ :: acc.2)) ([], [])

/-- Stand-in bytes for a working file written with conflict markers; the
exact marker bytes are irrelevant to every claim. -/
def conflictFileBytes (c : Conflict) : Bytes :=
  c.our.getD [] ++ c.their.getD []

/-- repo.merge from git2: three-way merge of HEAD and the remote commit
against their merge base, written into index and working tree, recording
MERGE_HEAD.  No check of an already-open merge is made (none is made by the
source either). -/
def repoMerge (r : Repo) (h rm : Nat) (rmc : Commit) : Repo :=
  let ourTree : Tree :=
    match r.store[h]? with
    | some hc => hc.tree
    | none => []
  let baseTree : Tree :=
    match mergeBaseOid r.store h rm with
    | some b =>
      match r.store[b]? with
      | some bc => bc.tree
      | none => []
    | none => []
  let m := threeWayMerge baseTree ourTree rmc.tree
  { r with index := { entries := m.1, conflicts := m.2 },
           workdir := m.1 ++ m.2.map (fun c => (c.path, conflictFileBytes c)),
           mergeHead := some rm }

/-- extract_conflicts from git_manager.rs: project the conflicted index
entries, with a missing side reported as empty content. -/
def extract_conflicts (r : Repo) : List ConflictInfo :=
  r.index.conflicts.map (fun c => ⟨c.path, c.ancestor, c.our.getD [], c.their.getD []⟩)

/-- complete_merge_internal from git_manager.rs: commit the current index
with the current HEAD and the given merge commit as the two parents (in
that order) and clear the merge state.  The merge message is rendered here
without the quote characters around the branch name. -/
def complete_merge_internal (r : Repo) (mOid : Nat) (t : Int) :
    Except GitErr (Nat × Repo) :=
  match write_tree r.index with
  | .error e => .error e
  | .ok tr =>
    match lookup r.branches r.branch with
    | none => .error .headNotFound
    | some h =>
      match r.store[h]? with
      | none => .error .objectNotFound
      | some _ =>
        let msg := "Merge remote-tracking branch origin/" ++ r.branch
        let c : Commit := ⟨msg, "User", "user@amber-app.local", t, [h, mOid], tr⟩
        .ok (r.store.length,
          { r with store := r.store ++ [c],
                   branches := setRef r.branches r.branch r.store.length,
                   mergeHead := none })

/-- complete_merge from git_manager.rs: only in Merging state (MERGE_HEAD
present), only with no conflicted entries left; then the merge-target
commit is read back from MERGE_HEAD and committed against. -/
def complete_merge (r : Repo) (t : Int) : Except GitErr (Nat × Repo) :=
  match r.mergeHead with
  | none => .error .notMerging
  | some m =>
    if !r.index.conflicts.isEmpty then .error .conflictsRemain
    else match r.store[m]? with
    | none => .error .objectNotFound
    | some _ => complete_merge_internal r m t

/-- A clean ConflictResolution around a status. -/
def cleanResult (st : SyncStatus) : ConflictResolution := ⟨false, [], st⟩

/-- The repository after the fast-forward branch of pull_from_remote:
the branch ref is moved to the remote commit and its tree is force-checked
out over working tree and index. -/
def ffRepo (r : Repo) (rm : Nat) (rmc : Commit) : Repo :=
  { r with branches := setRef r.branches r.branch rm,
           workdir := rmc.tree,
           index := { entries := rmc.tree, conflicts := [] } }

/-- The body of pull_from_remote after the fetch: find the remote-tracking
ref (none means first-push, return clean), run merge analysis, fast-forward
when possible, else three-way merge; a conflicted merge returns the
extracted conflicts with the repository left in Merging state, a clean one
is committed immediately. -/
def pullAfterFetch (w : World) (t : Int) : Except GitErr (ConflictResolution × World) :=
  match lookup w.repo.branches w.repo.branch with
  | none => .error .headNotFound
  | some h =>
    match lookup w.repo.remoteRefs w.repo.branch with
    | none =>
      match get_sync_status w.repo with
      | .error e => .error e
      | .ok st => .ok (cleanResult st, w)
    | some rm =>
      match w.repo.store[rm]? with
      | none => .error .objectNotFound
      | some rmc =>
        if isAncestor w.repo.store rm h then
          match get_sync_status w.repo with
          | .error e => .error e
          | .ok st => .ok (cleanResult st, w)
        else if isAncestor w.repo.store h rm then
          match get_sync_status (ffRepo w.repo rm rmc) with
          | .error e => .error e
          | .ok st => .ok (cleanResult st, { w with repo := ffRepo w.repo rm rmc })
        else
          if (repoMerge w.repo h rm rmc).index.conflicts.isEmpty then
            match complete_merge_internal (repoMerge w.repo h rm rmc) rm t with
            | .error e => .error e
            | .ok pr =>
              match get_sync_status pr.2 with
              | .error e => .error e
              | .ok st => .ok (cleanResult st, { w with repo := pr.2 })
          else
            match get_sync_status (repoMerge w.repo h rm rmc) with
            | .error e => .error e
            | .ok st =>
              .ok ({ has_conflicts := true,
                     conflicts := extract_conflicts (repoMerge w.repo h rm rmc),
                     sync_status := st }, { w with repo := repoMerge w.repo h rm rmc })

/-- pull_from_remote from git_manager.rs: fetch, then merge as analysed. -/
def pull_from_remote (w : World) (tok : String) (t : Int) :
    Except GitErr (ConflictResolution × World) :=
  match fetch_remote w tok with
  | .error e => .error e
  | .ok w1 => pullAfterFetch w1 t

/-- sync_vault from git_manager.rs: pull; on conflicts return the pull
result unchanged without pushing; else push and return a fresh status. -/
def sync_vault (w : World) (tok : String) (t : Int) :
    Except GitErr (ConflictResolution × World) :=
  match pull_from_remote w tok t with
  | .error e => .error e
  | .ok pw =>
    if pw.1.has_conflicts then .ok pw
    else
      match push_to_remote pw.2 tok with
      | .error e => .error e
      | .ok w2 =>
        match get_sync_status w2.repo with
        | .error e => .error e
        | .ok st => .ok (cleanResult st, w2)

/-- In a well-formed store, parents of the commit stored at i are below i. -/
theorem wf_parent_lt {store : List Commit} (hwf : wfStore store = true)
    {i : Nat} {c : Commit} (hc : store[i]? = some c) {p : Nat}
    (hp : p ∈ c.parents) : p < i := by
  have hlt : i < store.length := (List.getElem?_eq_some.mp hc).1
  have hall := List.all_eq_true.mp hwf i (List.mem_range.mpr hlt)
  rw [hc] at hall
  simp only [List.all_eq_true, decide_eq_true_eq] at hall
  exact hall p hp

/-- In a well-formed store, everything reachable from b has an id at most b. -/
theorem reach_le {store : List Commit} (hwf : wfStore store = true) :
    ∀ (fuel b a : Nat), a ∈ reachFrom store fuel b → a ≤ b := by
  intro fuel
  induction fuel with
  | zero =>
    intro b a hmem
    simp only [reachFrom, List.mem_singleton] at hmem
    omega
  | succ f ih =>
    intro b a hmem
    simp only [reachFrom, List.mem_cons] at hmem
    rcases hmem with rfl | hmem
    · exact Nat.le_refl a
    · cases hb : store[b]? with
      | none => rw [hb] at hmem; simp at hmem
      | some c =>
        rw [hb] at hmem
        simp only [List.mem_flatten, List.mem_map] at hmem
        obtain ⟨s, ⟨p, hp, rfl⟩, ha⟩ := hmem
        have h1 := ih p a ha
        have h2 := wf_parent_lt hwf hb hp
        omega

/-- Reachability is antisymmetric over a well-formed store. -/
theorem ancestor_antisymm {store : List Commit} (hwf : wfStore store = true)
    {a b : Nat} (h1 : isAncestor store a b = true)
    (h2 : isAncestor store b a = true) : a = b := by
  have ha : a ∈ reachFrom store store.length b := by
    simpa [isAncestor] using h1
  have hb : b ∈ reachFrom store store.length a := by
    simpa [isAncestor] using h2
  have l1 := reach_le hwf store.length b a ha
  have l2 := reach_le hwf store.length a b hb
  omega

/-- Looking up the key just set yields the value just set. -/
theorem lookup_setRef_self (l : List (String × Nat)) (k : String) (v : Nat) :
    lookup (setRef l k v) k = some v := by
  induction l with
  | nil => simp [setRef, lookup]
  | cons e rest ih =>
    obtain ⟨k2, v2⟩ := e
    simp only [setRef]
    split
    · simp [lookup]
    · next hne => simp [lookup, hne, ih]

/-- The condition under which the staging of one path fails: after making
it relative to the repository root it is still absolute (it lay outside the
root), or it is not a valid repository-relative path, or no such file
exists in the working tree — i.e. it is neither inside the root nor
resolvable relative to it. -/
def badPath (r : Repo) (f : FPath) : Bool :=
  let p := stripRoot r.root f
  p.abs || !(pathOk p) || (lookupT r.workdir p.comps).isNone

/-- Staging a bad path fails, whatever the index holds. -/
theorem add_path_of_bad {r : Repo} {f : FPath} (hbad : badPath r f = true)
    (idx : Index) : ∃ e, add_path r idx (stripRoot r.root f) = .error e := by
  cases hab : (stripRoot r.root f).abs with
  | true => exact ⟨.absolutePath, by simp [add_path, hab]⟩
  | false =>
    cases hok : pathOk (stripRoot r.root f) with
    | false => exact ⟨.invalidPath, by simp [add_path, hab, hok]⟩
    | true =>
      cases hbs : lookupT r.workdir (stripRoot r.root f).comps with
      | none => exact ⟨.fileNotFound, by simp [add_path, hab, hok, hbs]⟩
      | some bs =>
        exfalso
        unfold badPath at hbad
        simp [hab, hok, hbs] at hbad

/-- Staging a good path succeeds, whatever the index holds. -/
theorem add_path_of_good {r : Repo} {f : FPath} (hgood : badPath r f = false)
    (idx : Index) : ∃ idx2, add_path r idx (stripRoot r.root f) = .ok idx2 := by
  cases hab : (stripRoot r.root f).abs with
  | true => exfalso; unfold badPath at hgood; simp [hab] at hgood
  | false =>
    cases hok : pathOk (stripRoot r.root f) with
    | false => exfalso; unfold badPath at hgood; simp [hab, hok] at hgood
    | true =>
      cases hbs : lookupT r.workdir (stripRoot r.root f).comps with
      | none => exfalso; unfold badPath at hgood; simp [hab, hok, hbs] at hgood
      | some bs =>
        refine ⟨{ entries := setEntry idx.entries (stripRoot r.root f).comps bs,
                  conflicts := idx.conflicts.filter
                    (fun c => !(c.path == (stripRoot r.root f).comps)) }, ?_⟩
        simp [add_path, hab, hok, hbs]

/-- The staging loop fails as soon as the file list contains a bad path. -/
theorem stageFiles_of_bad {r : Repo} :
    ∀ (files : List FPath), files.any (fun f => badPath r f) = true →
    ∀ idx, ∃ e, stageFiles r idx files = .error e := by
  intro files
  induction files with
  | nil => intro hbad; simp at hbad
  | cons f rest ih =>
    intro hbad idx
    cases hbf : badPath r f with
    | true =>
      obtain ⟨e, he⟩ := add_path_of_bad hbf idx
      exact ⟨e, by simp [stageFiles, he]⟩
    | false =>
      have hrest : rest.any (fun f => badPath r f) = true := by
        simp only [List.any_cons, hbf, Bool.false_or] at hbad
        exact hbad
      obtain ⟨idx2, hok⟩ := add_path_of_good hbf idx
      obtain ⟨e, he⟩ := ih hrest idx2
      exact ⟨e, by simp [stageFiles, hok, he]⟩

/-- Pulling never touches the remote's own refs (there is no push in it). -/
theorem pullAfterFetch_remote {w : World} {t : Int} {p : ConflictResolution}
    {w2 : World} (hp : pullAfterFetch w t = .ok (p, w2)) : w2.remote = w.remote := by
  unfold pullAfterFetch at hp
  repeat' split at hp
  all_goals (first
    | exact Except.noConfusion hp
    | (simp only [Except.ok.injEq, Prod.mk.injEq] at hp
       rw [← hp.2]))

/-- pull_from_remote keeps the remote refs of the world unchanged. -/
theorem pull_preserves_remote {w : World} {tok : String} {t : Int}
    {p : ConflictResolution} {w2 : World}
    (hp : pull_from_remote w tok t = .ok (p, w2)) : w2.remote = w.remote := by
  unfold pull_from_remote at hp
  split at hp
  · exact absurd hp (by simp)
  · next w1 hw1 =>
    have h2 := pullAfterFetch_remote hp
    unfold fetch_remote at hw1
    split at hw1
    · exact absurd hw1 (by simp)
    · simp only [Except.ok.injEq] at hw1
      rw [h2, ← hw1]

/-- A tiny vault tree with one note (content "a"). -/
def treeA : Tree := [(["a.md"], [97])]

/-- A root automation commit over treeA, as auto_commit creates on a fresh
vault. -/
def commitA : Commit :=
  ⟨"Mosaic: seed (2026-01-01 10:00)", "Mosaic", "mosaic@amber-app.local", 0, [], treeA⟩

/-- A clean single-commit repository fixture. -/
def rBase : Repo :=
  { store := [commitA], branch := "main", branches := [("main", 0)],
    remoteRefs := [], index := ⟨treeA, []⟩, workdir := treeA,
    mergeHead := none, originUrl := some "https://example.test/vault.git",
    root := ⟨true, ["home", "vault"]⟩ }

/-- An absolute path outside the repository root of rBase. -/
def outsidePath : FPath := ⟨true, ["etc", "passwd"]⟩

/-- Claim C3: a call to autoCommit whose file list contains a path that is
neither inside the repository root nor resolvable relative to it fails: it
returns an error, so it stages nothing persistently and creates no commit
addressing content outside the repository root. -/
theorem c3_auto_commit_rejects_unresolvable_paths
    (r : Repo) (m ts : String) (t : Int) (files : List FPath)
    (hbad : files.any (fun f => badPath r f) = true) :
    ∃ e, auto_commit_mosaic_changes r m files t ts = .error e := by
  obtain ⟨e, he⟩ := stageFiles_of_bad files hbad r.index
  exact ⟨e, by simp [auto_commit_mosaic_changes, he]⟩

/-- Witness for C3 at a concrete repository and an absolute path outside
its root. -/
theorem c3_auto_commit_rejects_unresolvable_paths_witness :
    ([outsidePath].any (fun f => badPath rBase f) = true) ∧
    ∃ e, auto_commit_mosaic_changes rBase "edit" [outsidePath] 1 "2026-01-01 10:01" =
      .error e :=
  ⟨by decide,
   c3_auto_commit_rejects_unresolvable_paths rBase "edit" "2026-01-01 10:01" 1
     [outsidePath] (by decide)⟩

/-- A tree holding one non-UTF-8 blob and one UTF-8 blob ("hi"). -/
def treeBin : Tree := [(["bin.dat"], [255, 0]), (["ok.md"], [104, 105])]

/-- A commit over treeBin. -/
def commitBin : Commit := ⟨"add files", "User", "user@amber-app.local", 0, [], treeBin⟩

/-- A repository whose only commit is commitBin. -/
def rC10 : Repo :=
  { store := [commitBin], branch := "main", branches := [("main", 0)],
    remoteRefs := [], index := ⟨treeBin, []⟩, workdir := treeBin,
    mergeHead := none, originUrl := none, root := ⟨true, ["home", "vault"]⟩ }

/-- Claim C10: when the path resolves in the commit's tree to a file blob,
getFileContentAtCommit returns an error if the bytes are not valid UTF-8,
and returns the file's content exactly when they are. -/
theorem c10_content_requires_utf8
    (r : Repo) (oid : Nat) (p : String) (c : Commit) (bs : Bytes)
    (hc : r.store[oid]? = some c)
    (hb : lookupT c.tree (splitSlash p) = some bs) :
    (utf8Valid bs = false →
        get_file_content_at_commit r oid p = .error .invalidUtf8) ∧
    (utf8Valid bs = true → get_file_content_at_commit r oid p = .ok bs) := by
  constructor
  · intro hv
    simp [get_file_content_at_commit, hc, contentInTree, hb, hv]
  · intro hv
    simp [get_file_content_at_commit, hc, contentInTree, hb, hv]

/-- Witness for C10 at a concrete repository, on an invalid blob and on a
valid one. -/
theorem c10_content_requires_utf8_witness :
    utf8Valid [255, 0] = false ∧
    get_file_content_at_commit rC10 0 "bin.dat" = .error .invalidUtf8 ∧
    utf8Valid [104, 105] = true ∧
    get_file_content_at_commit rC10 0 "ok.md" = .ok [104, 105] :=
  ⟨by decide,
   (c10_content_requires_utf8 rC10 0 "bin.dat" commitBin [255, 0]
     (by rfl) (by decide)).1 (by decide),
   by decide,
   (c10_content_requires_utf8 rC10 0 "ok.md" commitBin [104, 105]
     (by rfl) (by decide)).2 (by decide)⟩

/-- Claim C4 counterexample: on a clean one-commit repository, staging via
commitAll produces exactly the HEAD tree, yet the operation succeeds and
appends a commit with that unchanged tree instead of failing with
NoChanges. -/
theorem c4_counterexample_empty_commit_created :
    (rBase.store[0]?).map Commit.tree = some treeA ∧
    rBase.workdir = treeA ∧
    commit_all_changes rBase "again" 7 =
      .ok (1, { rBase with
                  index := ⟨treeA, []⟩,
                  store := rBase.store ++
                    [⟨"again", "User", "user@amber-app.local", 7, [0], treeA⟩],
                  branches := [("main", 1)] }) :=
  ⟨rfl, rfl, rfl⟩

/-- Claim C4 (amended): when staging produces a tree identical to the tree
of the current HEAD commit, autoCommit, commitFile and commitAll do not
fail: each creates a new (empty) commit whose tree equals HEAD's tree and
whose single parent is HEAD — no NoChanges check exists. -/
theorem c4_empty_staging_still_commits
    (r : Repo) (m ts : String) (t : Int) (h : Nat) (hc : Commit)
    (hh : lookup r.branches r.branch = some h)
    (hhc : r.store[h]? = some hc) :
    (r.workdir = hc.tree →
      ∃ r2 c, commit_all_changes r m t = .ok (r.store.length, r2) ∧
        r2.store[r.store.length]? = some c ∧ c.tree = hc.tree ∧ c.parents = [h]) ∧
    (∀ f bs, (stripRoot r.root f).abs = false →
        pathOk (stripRoot r.root f) = true →
        lookupT r.workdir (stripRoot r.root f).comps = some bs →
        r.index.conflicts = [] →
        setEntry r.index.entries (stripRoot r.root f).comps bs = hc.tree →
      (∃ r2 c, commit_file r m f t = .ok (r.store.length, r2) ∧
        r2.store[r.store.length]? = some c ∧ c.tree = hc.tree ∧ c.parents = [h]) ∧
      (∃ r2 c, auto_commit_mosaic_changes r m [f] t ts = .ok (r.store.length, r2) ∧
        r2.store[r.store.length]? = some c ∧ c.tree = hc.tree ∧ c.parents = [h])) := by
  constructor
  · intro hw
    refine ⟨{ r with
                index := ⟨r.workdir, []⟩
                store := r.store ++ [⟨m, "User", "user@amber-app.local", t, [h], r.workdir⟩]
                branches := setRef r.branches r.branch r.store.length },
            ⟨m, "User", "user@amber-app.local", t, [h], r.workdir⟩, ?_, ?_, hw, rfl⟩
    · simp [commit_all_changes, write_tree, create_commit_internal, hh, hhc]
    · simp [List.getElem?_concat_length]
  · intro f bs habs hok hbs hconf hset
    constructor
    · refine ⟨{ r with
                  index := ⟨hc.tree, []⟩
                  store := r.store ++ [⟨m, "User", "user@amber-app.local", t, [h], hc.tree⟩]
                  branches := setRef r.branches r.branch r.store.length },
              ⟨m, "User", "user@amber-app.local", t, [h], hc.tree⟩, ?_, ?_, rfl, rfl⟩
      · simp [commit_file, add_path, habs, hok, hbs, hconf, hset, write_tree,
              create_commit_internal, hh, hhc]
      · simp [List.getElem?_concat_length]
    · refine ⟨{ r with
                  index := ⟨hc.tree, []⟩
                  store := r.store ++ [⟨"Mosaic: " ++ m ++ " (" ++ ts ++ ")", "Mosaic",
                    "mosaic@amber-app.local", t, [h], hc.tree⟩]
                  branches := setRef r.branches r.branch r.store.length },
              ⟨"Mosaic: " ++ m ++ " (" ++ ts ++ ")", "Mosaic",
                "mosaic@amber-app.local", t, [h], hc.tree⟩, ?_, ?_, rfl, rfl⟩
      · simp [auto_commit_mosaic_changes, stageFiles, add_path, habs, hok, hbs,
              hconf, hset, write_tree, create_commit_internal, hh, hhc]
      · simp [List.getElem?_concat_length]

/-- Witness for the amended C4 at the concrete clean repository. -/
theorem c4_empty_staging_still_commits_witness :
    rBase.workdir = commitA.tree ∧
    ∃ r2 c, commit_all_changes rBase "again" 7 = .ok (rBase.store.length, r2) ∧
      r2.store[rBase.store.length]? = some c ∧ c.tree = commitA.tree ∧
      c.parents = [0] :=
  ⟨rfl,
   (c4_empty_staging_still_commits rBase "again" "2026-01-01 10:01" 7 0 commitA
     (by rfl) (by rfl)).1 (by rfl)⟩

/-- Claim C6 counterexample: a repository whose HEAD is a root automation
commit (message carries the Mosaic: prefix but there is no parent): undo
fails with a parent-lookup error instead of creating the revert commit the
claim promises. -/
theorem c6_counterexample_root_automation_commit :
    strStarts commitA.message "Mosaic:" = true ∧
    lookup rBase.branches rBase.branch = some 0 ∧
    rBase.store[0]? = some commitA ∧
    undo_last_mosaic_commit rBase 9 = .error .parentNotFound :=
  ⟨rfl, rfl, rfl, rfl⟩

/-- Claim C6 (amended): undoLastAutomationCommit fails with
NotAutomationCommit whenever HEAD's message lacks the automation-tag
prefix, creating no commit; otherwise, provided HEAD has a first parent,
it creates a new commit whose parent is the pre-call HEAD, whose tree
equals the first parent's tree and whose message is Revert: followed by
the original message; when the automation commit is the root commit (no
parent) it fails with an error, creating no commit. -/
theorem c6_undo_reverts_automation_head
    (r : Repo) (t : Int) (h : Nat) (hc : Commit)
    (hh : lookup r.branches r.branch = some h)
    (hhc : r.store[h]? = some hc) :
    (strStarts hc.message "Mosaic:" = false →
        undo_last_mosaic_commit r t = .error .notMosaicCommit) ∧
    (strStarts hc.message "Mosaic:" = true → hc.parents = [] →
        undo_last_mosaic_commit r t = .error .parentNotFound) ∧
    (∀ p rest pc, strStarts hc.message "Mosaic:" = true →
        hc.parents = p :: rest → r.store[p]? = some pc →
        ∃ r2 c, undo_last_mosaic_commit r t = .ok (r.store.length, r2) ∧
          r2.store[r.store.length]? = some c ∧ c.parents = [h] ∧
          c.tree = pc.tree ∧ c.message = "Revert: " ++ hc.message) := by
  refine ⟨?_, ?_, ?_⟩
  · intro hm
    simp [undo_last_mosaic_commit, hh, hhc, hm]
  · intro hm hpar
    simp [undo_last_mosaic_commit, hh, hhc, hm, hpar]
  · intro p rest pc hm hpar hpc
    refine ⟨{ r with
                index := ⟨pc.tree, []⟩
                store := r.store ++ [⟨"Revert: " ++ hc.message, "Mosaic",
                  "mosaic@amber-app.local", t, [h], pc.tree⟩]
                branches := setRef r.branches r.branch r.store.length },
            ⟨"Revert: " ++ hc.message, "Mosaic", "mosaic@amber-app.local",
              t, [h], pc.tree⟩, ?_, ?_, rfl, rfl, rfl⟩
    · simp [undo_last_mosaic_commit, hh, hhc, hm, hpar, hpc]
    · simp [List.getElem?_concat_length]

/-- Modified tree after an automation edit (content "b"). -/
def treeA2 : Tree := [(["a.md"], [98])]

/-- An automation commit on top of commitA. -/
def commitMosaic : Commit :=
  ⟨"Mosaic: edit (2026-01-01 10:02)", "Mosaic", "mosaic@amber-app.local", 1, [0], treeA2⟩

/-- A repository whose HEAD is the automation commit commitMosaic. -/
def rUndo : Repo :=
  { store := [commitA, commitMosaic], branch := "main", branches := [("main", 1)],
    remoteRefs := [], index := ⟨treeA2, []⟩, workdir := treeA2,
    mergeHead := none, originUrl := none, root := ⟨true, ["home", "vault"]⟩ }

/-- Witness for the amended C6: undoing a non-root automation HEAD creates
the revert commit. -/
theorem c6_undo_reverts_automation_head_witness :
    strStarts commitMosaic.message "Mosaic:" = true ∧
    ∃ r2 c, undo_last_mosaic_commit rUndo 9 = .ok (rUndo.store.length, r2) ∧
      r2.store[rUndo.store.length]? = some c ∧ c.parents = [1] ∧
      c.tree = commitA.tree ∧ c.message = "Revert: " ++ commitMosaic.message :=
  ⟨rfl,
   (c6_undo_reverts_automation_head rUndo 9 1 commitMosaic (by rfl) (by rfl)).2.2
     0 [] commitA (by rfl) (by rfl) (by rfl)⟩

/-- Second commit of the C2 chain. -/
def commitB : Commit := ⟨"second", "User", "user@amber-app.local", 1, [0], treeA2⟩

/-- Third commit of the C2 chain. -/
def commitC : Commit := ⟨"third", "User", "user@amber-app.local", 2, [1], treeA⟩

/-- A repository with three local commits and no remote-tracking ref. -/
def rC2 : Repo :=
  { store := [commitA, commitB, commitC], branch := "main", branches := [("main", 2)],
    remoteRefs := [], index := ⟨treeA, []⟩, workdir := treeA,
    mergeHead := none, originUrl := some "https://example.test/vault.git",
    root := ⟨true, ["home", "vault"]⟩ }

/-- Claim C2 (code bug, evaluated): with a valid HEAD over three local
commits and no remote-tracking ref, a revwalk rooted at HEAD holds the 3
local commits, but get_sync_status reports ahead = 0 because the source
builds the count from a revwalk with no pushed root; behind = 0 and
up_to_date = false are as claimed, ahead is not. -/
theorem c2_sync_status_no_remote_ref_reports_zero_ahead :
    rC2.store.length = 3 ∧
    lookup rC2.remoteRefs rC2.branch = none ∧
    revwalk_count rC2.store [2] = 3 ∧
    get_sync_status rC2 = .ok { ahead := 0, behind := 0, up_to_date := false } :=
  ⟨rfl, rfl, by decide, rfl⟩

/-- Tree after the remote side's divergent edit (content "c"). -/
def treeA3 : Tree := [(["a.md"], [99])]

/-- The remote side's divergent commit on top of commitA. -/
def commitRemote : Commit := ⟨"remote edit", "User", "user@amber-app.local", 2, [0], treeA3⟩

/-- Claim C7: completeMerge fails with NotMerging when the repository is
not in Merging state and with ConflictsRemain when conflicted entries
remain, creating no commit in either case; otherwise it commits the
current index with exactly the two parents local HEAD (unchanged since the
merge began, as the merge created no commit) and the MERGE_HEAD commit,
and clears the merge state. -/
theorem c7_complete_merge_two_parents
    (r : Repo) (t : Int) (h : Nat) (hc : Commit)
    (hh : lookup r.branches r.branch = some h)
    (hhc : r.store[h]? = some hc) :
    (r.mergeHead = none → complete_merge r t = .error .notMerging) ∧
    (∀ m, r.mergeHead = some m → r.index.conflicts ≠ [] →
        complete_merge r t = .error .conflictsRemain) ∧
    (∀ m mc, r.mergeHead = some m → r.store[m]? = some mc →
        r.index.conflicts = [] →
        ∃ r2 c, complete_merge r t = .ok (r.store.length, r2) ∧
          r2.store[r.store.length]? = some c ∧ c.parents = [h, m] ∧
          c.tree = r.index.entries ∧ r2.mergeHead = none) := by
  refine ⟨?_, ?_, ?_⟩
  · intro hm
    simp [complete_merge, hm]
  · intro m hm hne
    cases hcf : r.index.conflicts with
    | nil => exact absurd hcf hne
    | cons a l => simp [complete_merge, hm, hcf]
  · intro m mc hm hmc hconf
    refine ⟨{ r with
                store := r.store ++ [⟨"Merge remote-tracking branch origin/" ++ r.branch,
                  "User", "user@amber-app.local", t, [h, m], r.index.entries⟩]
                branches := setRef r.branches r.branch r.store.length
                mergeHead := none },
            ⟨"Merge remote-tracking branch origin/" ++ r.branch, "User",
              "user@amber-app.local", t, [h, m], r.index.entries⟩, ?_, ?_, rfl, rfl, rfl⟩
    · simp [complete_merge, hm, hconf, hmc, complete_merge_internal, write_tree, hh, hhc]
    · simp [List.getElem?_concat_length]

/-- A repository stopped mid-merge whose one conflict is already resolved
in the index (kept ours); MERGE_HEAD records commit 2. -/
def rMergeResolved : Repo :=
  { store := [commitA, commitMosaic, commitRemote], branch := "main",
    branches := [("main", 1)], remoteRefs := [("main", 2)],
    index := ⟨treeA2, []⟩, workdir := treeA2, mergeHead := some 2,
    originUrl := some "https://example.test/vault.git",
    root := ⟨true, ["home", "vault"]⟩ }

/-- Witness for C7 at the resolved mid-merge repository. -/
theorem c7_complete_merge_two_parents_witness :
    rMergeResolved.mergeHead = some 2 ∧ rMergeResolved.index.conflicts = [] ∧
    ∃ r2 c, complete_merge rMergeResolved 5 = .ok (rMergeResolved.store.length, r2) ∧
      r2.store[rMergeResolved.store.length]? = some c ∧ c.parents = [1, 2] ∧
      c.tree = rMergeResolved.index.entries ∧ r2.mergeHead = none :=
  ⟨rfl, rfl,
   (c7_complete_merge_two_parents rMergeResolved 5 1 commitMosaic (by rfl)
     (by rfl)).2.2 2 commitRemote (by rfl) (by rfl) (by rfl)⟩

/-- Whether an Except result is ok. -/
def isOkE {ε α : Type} : Except ε α → Bool
  | .ok _ => true
  | .error _ => false

/-- A repository stopped mid-merge whose conflict is still unresolved:
exactly the Merging state a first conflicted pull leaves behind. -/
def rMergeOpen : Repo :=
  { store := [commitA, commitMosaic, commitRemote], branch := "main",
    branches := [("main", 1)], remoteRefs := [("main", 2)],
    index := ⟨[], [⟨["a.md"], some [97], some [98], some [99]⟩]⟩,
    workdir := [(["a.md"], [98, 99])], mergeHead := some 2,
    originUrl := some "https://example.test/vault.git",
    root := ⟨true, ["home", "vault"]⟩ }

/-- The world of rMergeOpen: the remote still serves the divergent commit. -/
def wC1 : World := ⟨rMergeOpen, [("main", 2)]⟩

/-- Claim C1 (code bug, evaluated): on a repository already in Merging
state a second pullFromRemote is not rejected with AlreadyMerging — the
engine has no such check, so the call runs the fetch and merge machinery
again (here it returns ok, rebuilding the conflict state in place). -/
theorem c1_second_pull_while_merging_not_rejected :
    wC1.repo.mergeHead = some 2 ∧
    isOkE (pull_from_remote wC1 "token" 3) = true ∧
    ∀ e : GitErr, pull_from_remote wC1 "token" 3 ≠ .error e := by
  refine ⟨rfl, by rfl, ?_⟩
  intro e hcontra
  have hok : isOkE (pull_from_remote wC1 "token" 3) = true := by rfl
  rw [hcontra] at hok
  exact Bool.noConfusion hok

/-- Claim C9: sync returns a conflicted pull result unchanged and performs
no push (the remote refs stay what they were); only when the pull reports
no conflicts does it push and return a freshly computed status with
has_conflicts false. -/
theorem c9_sync_pushes_only_when_pull_is_clean
    (w : World) (tok : String) (t : Int) (pr : ConflictResolution) (w1 : World)
    (hp : pull_from_remote w tok t = .ok (pr, w1)) :
    (pr.has_conflicts = true →
      sync_vault w tok t = .ok (pr, w1) ∧ w1.remote = w.remote) ∧
    (pr.has_conflicts = false →
      ∀ w2 st, push_to_remote w1 tok = .ok w2 → get_sync_status w2.repo = .ok st →
        sync_vault w tok t = .ok (cleanResult st, w2)) := by
  constructor
  · intro hcf
    refine ⟨?_, pull_preserves_remote hp⟩
    simp [sync_vault, hp, hcf]
  · intro hcf w2 st hpush hst
    simp [sync_vault, hp, hcf, hpush, hst]

/-- The sync status of a repository that has never seen its remote branch. -/
def stZero : SyncStatus := { ahead := 0, behind := 0, up_to_date := false }

/-- A world about to perform its first sync: the remote has no branch yet. -/
def wSync : World := ⟨rBase, []⟩

/-- The world after the first sync pushed the local branch. -/
def wPushed : World := ⟨rBase, [("main", 0)]⟩

/-- Witness for C9: a clean pull followed by the push of the local branch. -/
theorem c9_sync_pushes_only_when_pull_is_clean_witness :
    (cleanResult stZero).has_conflicts = false ∧
    sync_vault wSync "tk" 0 = .ok (cleanResult stZero, wPushed) :=
  ⟨rfl,
   (c9_sync_pushes_only_when_pull_is_clean wSync "tk" 0 (cleanResult stZero) wSync
     (by rfl)).2 (by rfl) wPushed stZero (by rfl) (by rfl)⟩

/-- Claim C5: restoreToCommit fails with DirtyWorkingTree exactly when the
status set is non-empty (and then produces no new state at all); otherwise
it creates a new commit whose single parent is the pre-call HEAD and whose
tree equals the target's tree, so file content read at the new HEAD equals
file content read at the target, for every path. -/
theorem c5_restore_creates_commit_of_target_tree
    (r : Repo) (x : Nat) (t : Int) (cx : Commit) (h : Nat) (hc : Commit)
    (hx : r.store[x]? = some cx)
    (hh : lookup r.branches r.branch = some h)
    (hhc : r.store[h]? = some hc) :
    (restore_vault_to_commit r x t = .error .dirtyWorkingTree ↔
        has_uncommitted_changes r = true) ∧
    (has_uncommitted_changes r = false →
      ∃ r2 c, restore_vault_to_commit r x t = .ok (r.store.length, r2) ∧
        r2.store[r.store.length]? = some c ∧ c.parents = [h] ∧ c.tree = cx.tree ∧
        lookup r2.branches r.branch = some r.store.length ∧
        ∀ p : String, get_file_content_at_commit r2 r.store.length p =
          get_file_content_at_commit r2 x p) := by
  have hsucc : has_uncommitted_changes r = false →
      restore_vault_to_commit r x t =
        .ok (r.store.length,
          { r with
              workdir := cx.tree
              index := ⟨cx.tree, []⟩
              store := r.store ++ [⟨"Restored vault to: " ++ cx.message ++ " (" ++
                shortHex x ++ ")", "User", "user@amber-app.local", t, [h], cx.tree⟩]
              branches := setRef r.branches r.branch r.store.length }) := by
    intro hcl
    simp [restore_vault_to_commit, hcl, hx, hh, hhc]
  constructor
  · constructor
    · intro he
      cases hd : has_uncommitted_changes r with
      | true => rfl
      | false =>
        rw [hsucc hd] at he
        exact Except.noConfusion he
    · intro hd
      simp [restore_vault_to_commit, hd]
  · intro hcl
    refine ⟨{ r with
                workdir := cx.tree
                index := ⟨cx.tree, []⟩
                store := r.store ++ [⟨"Restored vault to: " ++ cx.message ++ " (" ++
                  shortHex x ++ ")", "User", "user@amber-app.local", t, [h], cx.tree⟩]
                branches := setRef r.branches r.branch r.store.length },
            ⟨"Restored vault to: " ++ cx.message ++ " (" ++ shortHex x ++ ")",
              "User", "user@amber-app.local", t, [h], cx.tree⟩,
            hsucc hcl, ?_, rfl, rfl, ?_, ?_⟩
    · simp [List.getElem?_concat_length]
    · exact lookup_setRef_self r.branches r.branch r.store.length
    · intro p
      have hxlt : x < r.store.length := (List.getElem?_eq_some.mp hx).1
      have hxs : (r.store ++ [(⟨"Restored vault to: " ++ cx.message ++ " (" ++
          shortHex x ++ ")", "User", "user@amber-app.local", t, [h], cx.tree⟩ : Commit)])[x]? =
          some cx := by
        rw [List.getElem?_append, if_pos hxlt, hx]
      simp [get_file_content_at_commit, List.getElem?_concat_length, hxs]

/-- Witness for C5: restoring the one-commit repository to its own root. -/
theorem c5_restore_creates_commit_of_target_tree_witness :
    has_uncommitted_changes rBase = false ∧
    ∃ r2 c, restore_vault_to_commit rBase 0 9 = .ok (rBase.store.length, r2) ∧
      r2.store[rBase.store.length]? = some c ∧ c.parents = [0] ∧
      c.tree = commitA.tree ∧
      lookup r2.branches rBase.branch = some rBase.store.length ∧
      ∀ p : String, get_file_content_at_commit r2 rBase.store.length p =
        get_file_content_at_commit r2 0 p :=
  ⟨rfl,
   (c5_restore_creates_commit_of_target_tree rBase 0 9 commitA 0 commitA
     (by rfl) (by rfl) (by rfl)).2 (by rfl)⟩

/-- Claim C8: when the local HEAD is a strict ancestor of the remote
branch head, pullFromRemote fast-forwards: the branch ref moves to the
remote commit, that tree is checked out, the result is clean and the
object store is unchanged — zero new commits are created, in particular no
commit with two parents. -/
theorem c8_pull_fast_forward_creates_no_commit
    (w : World) (tok : String) (t : Int) (h rm : Nat) (rmc : Commit)
    (hwf : wfStore w.repo.store = true)
    (hurl : w.repo.originUrl.isSome = true)
    (hh : lookup w.repo.branches w.repo.branch = some h)
    (hr : lookup w.remote w.repo.branch = some rm)
    (hrc : w.repo.store[rm]? = some rmc)
    (hanc : isAncestor w.repo.store h rm = true)
    (hne : h ≠ rm) :
    ∃ st w2, pull_from_remote w tok t = .ok (cleanResult st, w2) ∧
      w2.repo.store = w.repo.store ∧
      lookup w2.repo.branches w2.repo.branch = some rm ∧
      w2.repo.workdir = rmc.tree ∧
      w2.repo.mergeHead = w.repo.mergeHead ∧
      w2.remote = w.remote := by
  have hup : isAncestor w.repo.store rm h = false := by
    cases hud : isAncestor w.repo.store rm h with
    | false => rfl
    | true => exact absurd (ancestor_antisymm hwf hud hanc).symm hne
  cases hu : w.repo.originUrl with
  | none => rw [hu] at hurl; simp at hurl
  | some u =>
    refine ⟨{ ahead := (aheadBehind w.repo.store rm rm).1,
              behind := (aheadBehind w.repo.store rm rm).2,
              up_to_date := (aheadBehind w.repo.store rm rm).1 == 0 &&
                (aheadBehind w.repo.store rm rm).2 == 0 },
            { w with repo := ffRepo { w.repo with remoteRefs := w.remote } rm rmc },
            ?_, rfl, ?_, rfl, rfl, rfl⟩
    · simp [pull_from_remote, fetch_remote, hu, pullAfterFetch, hh, hr, hrc, hup,
            hanc, get_sync_status, ffRepo, lookup_setRef_self]
    · simpa [ffRepo] using lookup_setRef_self w.repo.branches w.repo.branch rm

/-- A repository one commit behind the remote, fast-forward eligible. -/
def rFF : Repo :=
  { store := [commitA, commitMosaic], branch := "main", branches := [("main", 0)],
    remoteRefs := [], index := ⟨treeA, []⟩, workdir := treeA,
    mergeHead := none, originUrl := some "https://example.test/vault.git",
    root := ⟨true, ["home", "vault"]⟩ }

/-- The world of rFF: the remote branch already points at the child commit. -/
def wFF : World := ⟨rFF, [("main", 1)]⟩

/-- Witness for C8: pulling the fast-forward world moves the branch to the
remote commit with the store unchanged. -/
theorem c8_pull_fast_forward_creates_no_commit_witness :
    isAncestor wFF.repo.store 0 1 = true ∧
    ∃ st w2, pull_from_remote wFF "tk" 4 = .ok (cleanResult st, w2) ∧
      w2.repo.store = wFF.repo.store ∧
      lookup w2.repo.branches w2.repo.branch = some 1 ∧
      w2.repo.workdir = commitMosaic.tree ∧
      w2.repo.mergeHead = wFF.repo.mergeHead ∧
      w2.remote = wFF.remote :=
  ⟨by decide,
   c8_pull_fast_forward_creates_no_commit wFF "tk" 4 0 1 commitMosaic
     (by decide) (by rfl) (by rfl) (by rfl) (by rfl) (by decide) (by decide)⟩

end Moss
